import Mathlib

/-
Formal model of `src/hospital_queue.py` (class `InteractiveHospitalQueue`).

The Python program keeps a `queue.PriorityQueue` of tuples
`(-priority, arrival_timestamp, patient)`, a single `current_patient` slot,
an append-only `completed_patients` list, a monotone `patient_counter`, an
`is_running` flag, and spawns a fresh `run_service` thread (plus a display
`update_display_loop` thread) on every Start toggle.  We model:

* the priority queue as a list of `Entry` kept sorted by the Python tuple
  order (`negpri` then `ts`); `put` is ordered insertion, `get` pops the head;
* the drain-and-refill pattern of `update_display` (lines 135-155) as
  `drainRefill` (pop everything in order into a temp queue, then pop the temp
  queue back);
* the statistics block of `update_display` (lines 157-172) as
  `updateStatistics`;
* the whole object as a state `QState`, with the concurrent execution of the
  GUI callbacks and the spawned threads as a small-step interleaving relation
  `Step`; each step is one straight-line block of the Python code, and each
  `run_service` thread is a program counter walking lines 117-128.

Wall-clock time (`datetime.now()` / `time.sleep`) is modelled by a natural
number clock `now` advanced by an interleaved `tick` step; `time.sleep(d)`
inside `run_service` becomes the `sleeping` program point that can only fire
once `now` has passed the wake time.  Poisson draws are inputs of the
`assign` step (the code applies `int(...)` to the draw and no other
post-processing).
-/

namespace HospitalQueue

/-- Mirror of the Python `Patient` object (lines 14-21): arrival time and
priority are set at construction; the service fields start as `None`. -/
structure PatientData where
  arrival : Nat := 0
  priority : Nat := 1
  serviceStart : Option Nat := none
  serviceEnd : Option Nat := none
  serviceDuration : Option Nat := none
deriving Repr, DecidableEq

instance : Inhabited PatientData := ⟨{}⟩

/-- An element of the `PriorityQueue`: the tuple
`(-priority, arrival_time.timestamp(), patient)` from line 100; the patient
is represented by its id. -/
structure Entry where
  negpri : Int
  ts : Nat
  pid : Nat
deriving Repr, DecidableEq

/-- Python tuple comparison on the first two components: `heapq` orders the
entries by `negpri`, ties broken by `ts`.  (On a full tie Python would
compare the `Patient` objects and crash; theorems about pop order therefore
assume distinct keys where that matters.) -/
def keyLe (a b : Entry) : Prop :=
  a.negpri < b.negpri ∨ (a.negpri = b.negpri ∧ a.ts ≤ b.ts)

instance : DecidableRel keyLe := fun a b =>
  decidable_of_iff (a.negpri < b.negpri ∨ (a.negpri = b.negpri ∧ a.ts ≤ b.ts)) Iff.rfl

/-- Strict version of the key order: `a` comes strictly before `b`. -/
def keyLt (a b : Entry) : Prop := ¬ keyLe b a

instance : DecidableRel keyLt := fun a b => inferInstanceAs (Decidable (¬ keyLe b a))

instance : IsTotal Entry keyLe :=
  ⟨fun a b => by
    unfold keyLe
    rcases lt_trichotomy a.negpri b.negpri with h | h | h
    · exact Or.inl (Or.inl h)
    · rcases Nat.le_total a.ts b.ts with ht | ht
      · exact Or.inl (Or.inr ⟨h, ht⟩)
      · exact Or.inr (Or.inr ⟨h.symm, ht⟩)
    · exact Or.inr (Or.inl h)⟩

instance : IsTrans Entry keyLe :=
  ⟨fun a b c h₁ h₂ => by
    unfold keyLe at *
    rcases h₁ with h₁ | ⟨h₁, h₁t⟩ <;> rcases h₂ with h₂ | ⟨h₂, h₂t⟩
    · exact Or.inl (h₁.trans h₂)
    · exact Or.inl (h₂ ▸ h₁)
    · exact Or.inl (h₁ ▸ h₂)
    · exact Or.inr ⟨h₁.trans h₂, h₁t.trans h₂t⟩⟩

/-- One pass of lines 142-151 or 154-155 of `update_display`: pop every entry
(in priority order, which for the sorted-list representation is just the list
itself) and `put` each one into a fresh `PriorityQueue`. -/
def refill (l : List Entry) : List Entry :=
  l.foldl (fun acc e => List.orderedInsert keyLe e acc) []

/-- The queue contents after `update_display` (lines 135-155): the queue is
drained into `temp_queue` and then drained back. -/
def drainRefill (l : List Entry) : List Entry := refill (refill l)

/-- Program counter of a spawned thread.  A `run_service` thread (lines
117-128) walks: `atLoop` (the `while self.is_running` test) → `atCheck` (the
`if self.current_patient is None and not self.queue.empty()` test) → `atGet`
(the blocking `self.queue.get()`, line 120) → `atAssign p` (holding the
popped patient, about to run lines 121-123) → `sleeping wake`
(`time.sleep(duration)`, line 124) → `atFinish` (lines 125-127) → `atTick`
(`time.sleep(0.1)`, line 128) → back to `atLoop`; `done` after the loop
exits.  An `update_display_loop` thread (lines 130-133) is `updater`. -/
inductive ThreadPC where
  | atLoop
  | atCheck
  | atGet
  | atAssign (pid : Nat)
  | sleeping (wake : Nat)
  | atFinish
  | atTick
  | done
  | updater
deriving Repr, DecidableEq

/-- The mutable state of an `InteractiveHospitalQueue` object (lines 25-33)
plus the program counters of all threads spawned so far and a wall clock. -/
structure QState where
  avgServiceRate : ℚ
  now : Nat
  q : List Entry
  current : Option Nat
  completed : List Nat
  counter : Nat
  running : Bool
  threads : List ThreadPC
  patients : Nat → PatientData

/-- State right after `__init__(avg_service_rate)` (lines 25-33): empty
queue, no current patient, no completed patients, counter 0, not running,
no threads. -/
def initState (rate : ℚ) : QState :=
  ⟨rate, 0, [], none, [], 0, false, [], fun _ => {}⟩

/-- The constructor performs no parameter validation whatsoever (lines
25-38 contain only field assignments and GUI setup), so it succeeds for
every rate, including zero and negative ones. -/
def initQueue (rate : ℚ) : Except String QState := .ok (initState rate)

/-- Pointwise update of the patient store. -/
def setPatient (f : Nat → PatientData) (p : Nat) (d : PatientData) : Nat → PatientData :=
  fun n => if n = p then d else f n

/-- Wall-clock time advances (models `datetime.now()` moving forward). -/
def tickS (s : QState) : QState := { s with now := s.now + 1 }

/-- Effect of `add_patient(priority)` (lines 91-101): bump the counter,
create the patient with `arrival_time = datetime.now()`, `put` the tuple
`(-priority, timestamp, patient)` into the priority queue, then call
`update_display()`, whose only effect on this state is the drain-and-refill
of the queue (lines 141-155). -/
def addS (s : QState) (prio : Nat) : QState :=
  { s with
    counter := s.counter + 1
    patients := setPatient s.patients (s.counter + 1)
      { arrival := s.now, priority := prio }
    q := drainRefill (List.orderedInsert keyLe ⟨-(prio : Int), s.now, s.counter + 1⟩ s.q) }

/-- The Python return value of `add_patient`: the method has no `return`
statement (lines 91-101), so every call returns `None`. -/
def addPatientReturn (_s : QState) (_prio : Nat) : Option Nat := none

/-- `toggle_service` when not running (lines 104-112): set the flag and
spawn a fresh `run_service` thread and a fresh `update_display_loop`
thread. -/
def toggleOnS (s : QState) : QState :=
  { s with running := true, threads := s.threads ++ [.atLoop, .updater] }

/-- `toggle_service` when running (lines 113-115): clear the flag; nothing
else is touched — no queue, patient, or thread state is discarded. -/
def toggleOffS (s : QState) : QState := { s with running := false }

/-- Replace thread `i`'s program counter. -/
def setPC (s : QState) (i : Nat) (pc : ThreadPC) : QState :=
  { s with threads := s.threads.set i pc }

/-- `self.queue.get()` (line 120): remove the head (minimum) entry; the
thread now holds the popped patient. -/
def getS (s : QState) (i : Nat) (e : Entry) (rest : List Entry) : QState :=
  { s with q := rest, threads := s.threads.set i (.atAssign e.pid) }

/-- Lines 121-123: set `current_patient`, stamp `service_start_time =
datetime.now()`, and store `service_duration = int(poisson.rvs(mu=60/rate))`
where `d` is the Poisson draw; then the thread enters `time.sleep(d)`. -/
def assignS (s : QState) (i p d : Nat) : QState :=
  { s with
    current := some p
    patients := setPatient s.patients p
      { s.patients p with serviceStart := some s.now, serviceDuration := some d }
    threads := s.threads.set i (.sleeping (s.now + d)) }

/-- Lines 125-127: stamp `service_end_time = datetime.now()` on
`self.current_patient`, append it to `completed_patients`, and clear
`current_patient`.  Note the write goes through `self.current_patient`,
exactly as in the source. -/
def finishS (s : QState) (i p : Nat) : QState :=
  { s with
    patients := setPatient s.patients p { s.patients p with serviceEnd := some s.now }
    completed := s.completed ++ [p]
    current := none
    threads := s.threads.set i .atTick }

/-- State effect of one `update_display()` call from the display loop: the
queue is drained into `temp_queue` and restored (lines 141-155); labels and
the plot carry no model state. -/
def updDispS (s : QState) : QState := { s with q := drainRefill s.q }

/-- Interleaving small-step semantics of the program: GUI callbacks
(`add_patient`, `toggle_service`) may fire at any time, the wall clock
advances, and every spawned thread advances one block of code at a time. -/
inductive Step : QState → QState → Prop where
  | tick {s} : Step s (tickS s)
  | add {s} (prio : Nat) : Step s (addS s prio)
  | toggleOn {s} (h : s.running = false) : Step s (toggleOnS s)
  | toggleOff {s} (h : s.running = true) : Step s (toggleOffS s)
  | loopRun {s} (i : Nat) (h : s.threads[i]? = some .atLoop)
      (hr : s.running = true) : Step s (setPC s i .atCheck)
  | loopExit {s} (i : Nat) (h : s.threads[i]? = some .atLoop)
      (hr : s.running = false) : Step s (setPC s i .done)
  | checkTrue {s} (i : Nat) (h : s.threads[i]? = some .atCheck)
      (hc : s.current = none) (hq : s.q ≠ []) : Step s (setPC s i .atGet)
  | checkFalse {s} (i : Nat) (h : s.threads[i]? = some .atCheck)
      (hcf : s.current ≠ none ∨ s.q = []) : Step s (setPC s i .atTick)
  | get {s} (i : Nat) (e : Entry) (rest : List Entry)
      (h : s.threads[i]? = some .atGet) (hq : s.q = e :: rest) :
      Step s (getS s i e rest)
  | assign {s} (i p d : Nat) (h : s.threads[i]? = some (.atAssign p)) :
      Step s (assignS s i p d)
  | wake {s} (i w : Nat) (h : s.threads[i]? = some (.sleeping w))
      (hw : w ≤ s.now) : Step s (setPC s i .atFinish)
  | finish {s} (i p : Nat) (h : s.threads[i]? = some .atFinish)
      (hc : s.current = some p) : Step s (finishS s i p)
  | tickPC {s} (i : Nat) (h : s.threads[i]? = some .atTick) :
      Step s (setPC s i .atLoop)
  | updDisp {s} (i : Nat) (h : s.threads[i]? = some .updater)
      (hr : s.running = true) : Step s (updDispS s)
  | updExit {s} (i : Nat) (h : s.threads[i]? = some .updater)
      (hr : s.running = false) : Step s (setPC s i .done)

/-- A state is reachable when some interleaved execution of callbacks and
threads produces it from a freshly constructed object. -/
def Reachable (rate : ℚ) (s : QState) : Prop :=
  Relation.ReflTransGen Step (initState rate) s

/-- A patient is in service: its `service_start_time` has been stamped but
its `service_end_time` has not. -/
def inService (s : QState) (p : Nat) : Prop :=
  (s.patients p).serviceStart ≠ none ∧ (s.patients p).serviceEnd = none

/-- Every patient id stored anywhere in the object: in a queue entry, in
the completed list, in the `current_patient` slot, or held by a service
thread between `get` and the `current_patient` assignment. -/
def usedIds (s : QState) : List Nat :=
  s.q.map Entry.pid ++ s.completed ++ s.current.toList ++
    s.threads.filterMap fun t => match t with | .atAssign p => some p | _ => none

/-- Wait time of one completed patient as computed on lines 164-165:
`(service_start_time - arrival_time).total_seconds() / 60`. -/
def waitMinutes (pd : PatientData) : ℚ :=
  (((pd.serviceStart.getD 0 : Nat) : ℚ) - (pd.arrival : ℚ)) / 60

/-- Whether a fallible computation succeeded. -/
def exceptOk {ε α : Type} (x : Except ε α) : Bool :=
  match x with
  | .ok _ => true
  | .error _ => false

/-- One element of the wait-time comprehension on lines 164-165, with its
error path: if the completed patient's `service_start_time` is still `None`
(reachable through the duplicate-thread race), Python raises `TypeError`
when evaluating `None - arrival_time`; otherwise it yields
`(service_start - arrival).total_seconds() / 60`. -/
def waitMinutesE (pd : PatientData) : Except String ℚ :=
  match pd.serviceStart with
  | none => .error "TypeError"
  | some st => .ok (((st : ℚ) - (pd.arrival : ℚ)) / 60)

/-- The list comprehension of lines 164-165 over the completed patients,
evaluated left to right and raising at the first patient whose
`service_start_time` is unset, exactly as Python would. -/
def waitListE (patients : Nat → PatientData) : List Nat → Except String (List ℚ)
  | [] => .ok []
  | p :: ps =>
    match waitMinutesE (patients p) with
    | .error e => .error e
    | .ok w =>
      match waitListE patients ps with
      | .error e => .error e
      | .ok ws => .ok (w :: ws)

/-- The statistics block of `update_display` (lines 163-169), written as a
fallible computation to record exactly where it can raise: when
`completed_patients` is empty the `if` guard simply skips the block (no
statistics are produced and no exception is raised); on a non-empty list it
evaluates the wait-time comprehension — which raises `TypeError` if some
completed patient's start is unset — and otherwise produces the average and
maximum wait. -/
def updateStatistics (completed : List Nat) (patients : Nat → PatientData) :
    Except String (Option (ℚ × ℚ)) :=
  match completed with
  | [] => .ok none
  | c :: cs =>
    match waitListE patients (c :: cs) with
    | .error e => .error e
    | .ok waits =>
      .ok (some (waits.sum / (waits.length : ℚ), waits.foldl max (waits.headD 0)))

/-- The mean used for the Poisson draw on line 123, `60 / avg_service_rate`,
as Python evaluates it: a zero rate raises `ZeroDivisionError` at that line
(inside the service loop), not at construction time. -/
def muOf (rate : ℚ) : Except String ℚ :=
  if rate = 0 then .error "ZeroDivisionError" else .ok (60 / rate)

/-- Post-processing the code applies to a Poisson draw on line 123: only
`int(...)`, which is the identity on the integer draw — there is no
rounding step and no minimum-of-1 floor. -/
def serviceDurationOf (draw : Nat) : Nat := draw

/-- Sequence of patient ids returned by successive `queue.get()` calls that
drain the queue: for the sorted-list representation this is just the list
of pids in order. -/
def popSeq (q : List Entry) : List Nat := q.map Entry.pid

/-- Queue contents after the admission scenario of the spec: a Normal
patient (id 1, priority 1, time `t1`), then an Emergency patient (id 2,
priority 3, time `t2`), then a Normal patient (id 3, priority 1, time
`t3`), each inserted by `put((-priority, timestamp, patient))`. -/
def admitEntries (t1 t2 t3 : Nat) : List Entry :=
  List.orderedInsert keyLe ⟨-1, t3, 3⟩
    (List.orderedInsert keyLe ⟨-3, t2, 2⟩
      (List.orderedInsert keyLe ⟨-1, t1, 1⟩ []))

/-- Timestamp sanity: every patient's recorded arrival is in the past, and
a stamped service start lies between the arrival and the present.  This is
the inductive invariant behind the wait-time properties. -/
def serviceInv (s : QState) : Prop :=
  (∀ p, (s.patients p).arrival ≤ s.now) ∧
  (∀ p st, (s.patients p).serviceStart = some st →
    (s.patients p).arrival ≤ st ∧ st ≤ s.now)

/-- Id sanity: every patient id stored anywhere in the object is one that
`add_patient` has assigned, i.e. lies in `1 .. patient_counter`. -/
def idsInv (s : QState) : Prop :=
  (∀ e ∈ s.q, 1 ≤ e.pid ∧ e.pid ≤ s.counter) ∧
  (∀ p ∈ s.completed, 1 ≤ p ∧ p ≤ s.counter) ∧
  (∀ p, s.current = some p → 1 ≤ p ∧ p ≤ s.counter) ∧
  (∀ pc ∈ s.threads, ∀ p, pc = ThreadPC.atAssign p → 1 ≤ p ∧ p ≤ s.counter)

/-- A state in which one service thread already popped a patient and is
about to execute lines 121-123; used to witness properties of that step. -/
def c7WitState : QState :=
  ⟨4, 0, [], none, [], 1, true, [ThreadPC.atAssign 1], fun _ => {}⟩

/-- A halted state with a sleeping service thread whose timer has fired and
whose patient is still in service; used to witness that the toggle does not
interrupt an in-flight service. -/
def c4WitState : QState :=
  ⟨4, 0, [], some 1, [], 1, false, [ThreadPC.sleeping 0],
    setPatient (fun _ => {}) 1 { arrival := 0, priority := 1, serviceStart := some 0 }⟩

/-- A state whose queue holds an Emergency and a Normal entry with distinct
keys; used to witness the display round-trip. -/
def c10WitState : QState :=
  ⟨4, 0, [⟨-3, 0, 2⟩, ⟨-1, 1, 1⟩], none, [], 2, false, [], fun _ => {}⟩

/-- Reachable state in which patient 1 has been admitted, popped, and is
entering service at time 0; used to witness the wait-time theorem. -/
def c3WitState : QState :=
  assignS
    (getS
      (setPC (setPC (toggleOnS (addS (initState 4) 1)) 0 .atCheck) 0 .atGet)
      0 ⟨-1, 0, 1⟩ [])
    0 1 3

end HospitalQueue

namespace HospitalQueue

theorem keyLe_total (a b : Entry) : keyLe a b ∨ keyLe b a := total_of keyLe a b

theorem keyLe_trans {a b c : Entry} (h₁ : keyLe a b) (h₂ : keyLe b c) : keyLe a c :=
  trans_of keyLe h₁ h₂

theorem keyLt_of_not_keyLe {a b : Entry} (h : ¬ keyLe a b) : keyLt b a := h

theorem keyLe_of_keyLt {a b : Entry} (h : keyLt a b) : keyLe a b :=
  (keyLe_total a b).resolve_right h

theorem keyLt_trans {a b c : Entry} (h₁ : keyLt a b) (h₂ : keyLt b c) : keyLt a c := by
  intro hca
  exact h₂ (keyLe_trans hca (keyLe_of_keyLt h₁))

theorem keyLt_or_keyLt_of_key_ne {a b : Entry}
    (hne : a.negpri ≠ b.negpri ∨ a.ts ≠ b.ts) : keyLt a b ∨ keyLt b a := by
  by_cases hba : keyLe b a
  · by_cases hab : keyLe a b
    · exfalso
      unfold keyLe at hab hba
      rcases hab with hab | ⟨hab, habt⟩ <;> rcases hba with hba | ⟨hba, hbat⟩ <;>
        rcases hne with hne | hne <;> omega
    · exact Or.inr hab
  · exact Or.inl hba

theorem refill_append_singleton (l : List Entry) (x : Entry) :
    refill (l ++ [x]) = List.orderedInsert keyLe x (refill l) := by
  simp [refill, List.foldl_append]

theorem orderedInsert_eq_append {x : Entry} :
    ∀ {l : List Entry}, (∀ y ∈ l, keyLt y x) → List.orderedInsert keyLe x l = l ++ [x]
  | [], _ => rfl
  | h :: t, hlt => by
    have hx : ¬ keyLe x h := hlt h (List.mem_cons_self h t)
    simp only [List.orderedInsert, if_neg hx]
    rw [orderedInsert_eq_append fun y hy => hlt y (List.mem_cons_of_mem h hy)]
    simp

theorem refill_perm : ∀ l : List Entry, List.Perm (refill l) l := by
  intro l
  induction l using List.reverseRecOn with
  | nil => rfl
  | append_singleton l x ih =>
    rw [refill_append_singleton]
    exact (List.perm_orderedInsert keyLe x (refill l)).trans
      ((ih.cons x).trans (List.perm_append_singleton x l).symm)

theorem refill_eq_self : ∀ {l : List Entry}, l.Pairwise keyLt → refill l = l := by
  intro l
  induction l using List.reverseRecOn with
  | nil => intro _; rfl
  | append_singleton l x ih =>
    intro hp
    rw [List.pairwise_append] at hp
    obtain ⟨hl, -, hcross⟩ := hp
    rw [refill_append_singleton, ih hl]
    exact orderedInsert_eq_append fun y hy => hcross y hy x (List.mem_singleton_self x)

theorem drainRefill_eq_self {l : List Entry} (h : l.Pairwise keyLt) :
    drainRefill l = l := by
  unfold drainRefill
  rw [refill_eq_self h, refill_eq_self h]

theorem drainRefill_perm (l : List Entry) : List.Perm (drainRefill l) l :=
  (refill_perm (refill l)).trans (refill_perm l)

theorem pairwise_orderedInsert {e : Entry} :
    ∀ {l : List Entry}, l.Pairwise keyLt → (∀ x ∈ l, keyLt x e ∨ keyLt e x) →
      (List.orderedInsert keyLe e l).Pairwise keyLt
  | [], _, _ => List.pairwise_singleton keyLt e
  | h :: t, hp, hcmp => by
    rcases List.pairwise_cons.mp hp with ⟨hht, hpt⟩
    by_cases hle : keyLe e h
    · have heh : keyLt e h := by
        rcases hcmp h (List.mem_cons_self h t) with hh | hh
        · exact absurd hle hh
        · exact hh
      simp only [List.orderedInsert, if_pos hle]
      refine List.pairwise_cons.mpr ⟨?_, hp⟩
      intro y hy
      rcases List.mem_cons.mp hy with rfl | hyt
      · exact heh
      · exact keyLt_trans heh (hht y hyt)
    · simp only [List.orderedInsert, if_neg hle]
      refine List.pairwise_cons.mpr ⟨?_, ?_⟩
      · intro y hy
        rcases (List.mem_orderedInsert keyLe).mp hy with rfl | hyt
        · exact keyLt_of_not_keyLe hle
        · exact hht y hyt
      · exact pairwise_orderedInsert hpt fun x hx => hcmp x (List.mem_cons_of_mem h hx)

theorem serviceInv_init (rate : ℚ) : serviceInv (initState rate) := by
  constructor
  · intro p
    exact Nat.le_refl 0
  · intro p st hst
    simp [initState] at hst

theorem serviceInv_step {s s' : QState} (h : Step s s') (hs : serviceInv s) :
    serviceInv s' := by
  obtain ⟨h1, h2⟩ := hs
  cases h with
  | tick =>
    refine ⟨fun p => (h1 p).trans (Nat.le_succ _), fun p st hst => ?_⟩
    exact ⟨(h2 p st hst).1, (h2 p st hst).2.trans (Nat.le_succ _)⟩
  | add prio =>
    constructor
    · intro p
      by_cases hp : p = s.counter + 1 <;> simp [addS, setPatient, hp]
      exact h1 p
    · intro p st hst
      by_cases hp : p = s.counter + 1
      · simp [addS, setPatient, hp] at hst
      · simp only [addS, setPatient, if_neg hp] at hst ⊢
        exact h2 p st hst
  | toggleOn h => exact ⟨h1, h2⟩
  | toggleOff h => exact ⟨h1, h2⟩
  | loopRun i h hr => exact ⟨h1, h2⟩
  | loopExit i h hr => exact ⟨h1, h2⟩
  | checkTrue i h hc hq => exact ⟨h1, h2⟩
  | checkFalse i h hcf => exact ⟨h1, h2⟩
  | get i e rest h hq => exact ⟨h1, h2⟩
  | assign i p d h =>
    constructor
    · intro p'
      by_cases hp : p' = p <;> simp [assignS, setPatient, hp] <;> exact h1 _
    · intro p' st hst
      by_cases hp : p' = p
      · simp [assignS, setPatient, hp] at hst ⊢
        subst hst
        exact ⟨h1 p, Nat.le_refl _⟩
      · simp only [assignS, setPatient, if_neg hp] at hst ⊢
        exact h2 p' st hst
  | wake i w h hw => exact ⟨h1, h2⟩
  | finish i p h hc =>
    constructor
    · intro p'
      by_cases hp : p' = p <;> simp [finishS, setPatient, hp] <;> exact h1 _
    · intro p' st hst
      by_cases hp : p' = p
      · simp [finishS, setPatient, hp] at hst ⊢
        exact h2 p st hst
      · simp only [finishS, setPatient, if_neg hp] at hst ⊢
        exact h2 p' st hst
  | tickPC i h => exact ⟨h1, h2⟩
  | updDisp i h hr => exact ⟨h1, h2⟩
  | updExit i h hr => exact ⟨h1, h2⟩

theorem serviceInv_reachable {rate : ℚ} {s : QState} (h : Reachable rate s) :
    serviceInv s := by
  induction h with
  | refl => exact serviceInv_init rate
  | tail _ hstep ih => exact serviceInv_step hstep ih

theorem idsInv_init (rate : ℚ) : idsInv (initState rate) := by
  refine ⟨?_, ?_, ?_, ?_⟩ <;> intro x hx <;> simp [initState] at hx

theorem idsInv_setPC {s : QState} {i : Nat} {pc : ThreadPC}
    (hs : idsInv s) (hpc : ∀ p, pc ≠ ThreadPC.atAssign p) : idsInv (setPC s i pc) := by
  obtain ⟨hq, hcpl, hcur, hthr⟩ := hs
  refine ⟨hq, hcpl, hcur, ?_⟩
  intro pc' hpc' p hp
  rcases List.mem_or_eq_of_mem_set hpc' with hmem | rfl
  · exact hthr pc' hmem p hp
  · exact absurd hp (hpc p)

theorem idsInv_step {s s' : QState} (h : Step s s') (hs : idsInv s) : idsInv s' := by
  obtain ⟨hq, hcpl, hcur, hthr⟩ := hs
  cases h with
  | tick => exact ⟨hq, hcpl, hcur, hthr⟩
  | add prio =>
    refine ⟨?_, ?_, ?_, ?_⟩
    · intro e he
      have he' : e ∈ List.orderedInsert keyLe ⟨-(prio : Int), s.now, s.counter + 1⟩ s.q :=
        (drainRefill_perm _).mem_iff.mp he
      rcases (List.mem_orderedInsert keyLe).mp he' with rfl | he''
      · exact ⟨Nat.le_add_left 1 s.counter, Nat.le_refl _⟩
      · exact ⟨(hq e he'').1, (hq e he'').2.trans (Nat.le_succ _)⟩
    · intro p hp
      exact ⟨(hcpl p hp).1, (hcpl p hp).2.trans (Nat.le_succ _)⟩
    · intro p hp
      exact ⟨(hcur p hp).1, (hcur p hp).2.trans (Nat.le_succ _)⟩
    · intro pc hpc p hp
      exact ⟨(hthr pc hpc p hp).1, (hthr pc hpc p hp).2.trans (Nat.le_succ _)⟩
  | toggleOn h =>
    refine ⟨hq, hcpl, hcur, ?_⟩
    intro pc hpc p hp
    rcases List.mem_append.mp hpc with hmem | hmem
    · exact hthr pc hmem p hp
    · subst hp
      simp at hmem
  | toggleOff h => exact ⟨hq, hcpl, hcur, hthr⟩
  | loopRun i h hr => exact idsInv_setPC ⟨hq, hcpl, hcur, hthr⟩ (by intro p h'; cases h')
  | loopExit i h hr => exact idsInv_setPC ⟨hq, hcpl, hcur, hthr⟩ (by intro p h'; cases h')
  | checkTrue i h hc hq' => exact idsInv_setPC ⟨hq, hcpl, hcur, hthr⟩ (by intro p h'; cases h')
  | checkFalse i h hcf => exact idsInv_setPC ⟨hq, hcpl, hcur, hthr⟩ (by intro p h'; cases h')
  | get i e rest h hq' =>
    have heq : e ∈ s.q := by
      rw [hq']
      exact List.mem_cons_self e rest
    refine ⟨?_, hcpl, hcur, ?_⟩
    · intro e' he'
      refine hq e' ?_
      rw [hq']
      exact List.mem_cons_of_mem e he'
    · intro pc hpc p hp
      rcases List.mem_or_eq_of_mem_set hpc with hmem | rfl
      · exact hthr pc hmem p hp
      · cases hp
        exact hq e heq
  | assign i p d h =>
    have hpbound : 1 ≤ p ∧ p ≤ s.counter :=
      hthr (ThreadPC.atAssign p) (List.getElem?_mem h) p rfl
    refine ⟨hq, hcpl, ?_, ?_⟩
    · intro p' hp'
      have hpp : p = p' := by
        simpa [assignS] using hp'
      exact hpp ▸ hpbound
    · intro pc hpc p' hp'
      rcases List.mem_or_eq_of_mem_set hpc with hmem | rfl
      · exact hthr pc hmem p' hp'
      · cases hp'
  | wake i w h hw => exact idsInv_setPC ⟨hq, hcpl, hcur, hthr⟩ (by intro p h'; cases h')
  | finish i p h hc =>
    refine ⟨hq, ?_, ?_, ?_⟩
    · intro p' hp'
      rcases List.mem_append.mp hp' with hmem | hmem
      · exact hcpl p' hmem
      · rcases List.mem_singleton.mp hmem with rfl
        exact hcur p' hc
    · intro p' hp'
      simp [finishS] at hp'
    · intro pc hpc p' hp'
      rcases List.mem_or_eq_of_mem_set hpc with hmem | rfl
      · exact hthr pc hmem p' hp'
      · cases hp'
  | tickPC i h => exact idsInv_setPC ⟨hq, hcpl, hcur, hthr⟩ (by intro p h'; cases h')
  | updDisp i h hr =>
    refine ⟨?_, hcpl, hcur, hthr⟩
    intro e he
    exact hq e ((drainRefill_perm s.q).mem_iff.mp he)
  | updExit i h hr => exact idsInv_setPC ⟨hq, hcpl, hcur, hthr⟩ (by intro p h'; cases h')

theorem idsInv_reachable {rate : ℚ} {s : QState} (h : Reachable rate s) :
    idsInv s := by
  induction h with
  | refl => exact idsInv_init rate
  | tail _ hstep ih => exact idsInv_step hstep ih

theorem usedIds_bound {rate : ℚ} {s : QState} (h : Reachable rate s) :
    ∀ p ∈ usedIds s, 1 ≤ p ∧ p ≤ s.counter := by
  obtain ⟨hq, hcpl, hcur, hthr⟩ := idsInv_reachable h
  intro p hp
  unfold usedIds at hp
  rcases List.mem_append.mp hp with hp' | hp'
  · rcases List.mem_append.mp hp' with hp'' | hp''
    · rcases List.mem_append.mp hp'' with hp3 | hp3
      · rcases List.mem_map.mp hp3 with ⟨e, he, rfl⟩
        exact hq e he
      · exact hcpl p hp3
    · have hsome : s.current = some p := by simpa using hp''
      exact hcur p hsome
  · rcases List.mem_filterMap.mp hp' with ⟨pc, hpc, hmatch⟩
    cases pc <;> simp at hmatch
    case atAssign p' =>
      cases hmatch
      exact hthr (ThreadPC.atAssign p) hpc p rfl

theorem admitEntries_eq (t1 t2 t3 : Nat) :
    admitEntries t1 t2 t3 =
      if t3 ≤ t1 then [⟨-3, t2, 2⟩, ⟨-1, t3, 3⟩, ⟨-1, t1, 1⟩]
      else [⟨-3, t2, 2⟩, ⟨-1, t1, 1⟩, ⟨-1, t3, 3⟩] := by
  have h2 : List.orderedInsert keyLe ⟨-3, t2, 2⟩ [⟨-1, t1, 1⟩] =
      [⟨-3, t2, 2⟩, ⟨-1, t1, 1⟩] := by
    simp only [List.orderedInsert]
    rw [if_pos]
    exact Or.inl (by norm_num)
  have h3 : ¬ keyLe ⟨-1, t3, 3⟩ ⟨-3, t2, 2⟩ := by
    rintro (h | ⟨h, -⟩) <;> norm_num at h
  have h4 : keyLe ⟨-1, t3, 3⟩ ⟨-1, t1, 1⟩ ↔ t3 ≤ t1 := by
    constructor
    · rintro (h | ⟨-, h⟩)
      · norm_num at h
      · exact h
    · intro h
      exact Or.inr ⟨rfl, h⟩
  show List.orderedInsert keyLe ⟨-1, t3, 3⟩
      (List.orderedInsert keyLe ⟨-3, t2, 2⟩ [⟨-1, t1, 1⟩]) = _
  rw [h2]
  simp only [List.orderedInsert, if_neg h3]
  by_cases ht : t3 ≤ t1
  · rw [if_pos ht, if_pos (h4.mpr ht)]
  · rw [if_neg ht, if_neg (fun hh => ht (h4.mp hh))]

/-- C1: in the interactive scheduler's priority queue, after admissions in
order [Normal, Emergency, Normal], it is the FIRST pop (not the second) that
returns the Emergency patient: at arrival times 0, 1, 2 the pop sequence is
[2, 1, 3], so the second `queue.get()` returns Normal patient 1, not
Emergency patient 2. -/
theorem second_pop_is_not_emergency :
    (popSeq (admitEntries 0 1 2))[1]? = some 1 ∧
      (popSeq (admitEntries 0 1 2))[1]? ≠ some 2 := by decide

/-- C1 (amended): the Emergency patient is popped before either Normal
patient — it is the first pop, for every arrival order (with distinct
Normal keys, since a full key tie crashes Python's tuple comparison): the
pop sequence is [2, 3, 1] or [2, 1, 3]. -/
theorem emergency_popped_before_normals (t1 t2 t3 : Nat) (_hne : t1 ≠ t3) :
    popSeq (admitEntries t1 t2 t3) = [2, 3, 1] ∨
      popSeq (admitEntries t1 t2 t3) = [2, 1, 3] := by
  rw [admitEntries_eq]
  by_cases ht : t3 ≤ t1
  · rw [if_pos ht]
    exact Or.inl rfl
  · rw [if_neg ht]
    exact Or.inr rfl

/-- C1 witness: the amended theorem applied at arrival times 0, 1, 2. -/
theorem emergency_popped_before_normals_witness :
    popSeq (admitEntries 0 1 2) = [2, 3, 1] ∨
      popSeq (admitEntries 0 1 2) = [2, 1, 3] :=
  emergency_popped_before_normals 0 1 2 (by decide)

/-- C2: single-server exclusivity FAILS over stop/restart.  Toggling the
service off and on again while a patient is in service spawns a second
`run_service` thread while the first is still sleeping inside its
`time.sleep`; once the first completes its patient both threads pass the
`current_patient is None` check, each pops a patient, and both stamp
service starts — a reachable state has patients 2 and 3 simultaneously in
service.  The concrete trace: admit three Normal patients, start service
(thread A pops patient 1), stop, start again (thread B spawned), patient 1
completes, both threads pop and enter service. -/
theorem two_patients_in_service_reachable :
    ∃ s : QState, Reachable 4 s ∧ inService s 2 ∧ inService s 3 := by
  have T0 : Relation.ReflTransGen Step (initState 4) (initState 4) :=
    Relation.ReflTransGen.refl
  have T1 := T0.tail (Step.add 1)
  have T2 := T1.tail Step.tick
  have T3 := T2.tail (Step.add 1)
  have T4 := T3.tail Step.tick
  have T5 := T4.tail (Step.add 1)
  have T6 := T5.tail (Step.toggleOn (by decide))
  have T7 := T6.tail (Step.loopRun 0 (by decide) (by decide))
  have T8 := T7.tail (Step.checkTrue 0 (by decide) (by decide) (by decide))
  have T9 := T8.tail (Step.get 0 ⟨-1, 0, 1⟩ [⟨-1, 1, 2⟩, ⟨-1, 2, 3⟩] (by decide) (by decide))
  have T10 := T9.tail (Step.assign 0 1 0 (by decide))
  have T11 := T10.tail (Step.toggleOff (by decide))
  have T12 := T11.tail (Step.toggleOn (by decide))
  have T13 := T12.tail (Step.wake 0 2 (by decide) (by decide))
  have T14 := T13.tail (Step.finish 0 1 (by decide) (by decide))
  have T15 := T14.tail (Step.tickPC 0 (by decide))
  have T16 := T15.tail (Step.loopRun 0 (by decide) (by decide))
  have T17 := T16.tail (Step.loopRun 2 (by decide) (by decide))
  have T18 := T17.tail (Step.checkTrue 0 (by decide) (by decide) (by decide))
  have T19 := T18.tail (Step.checkTrue 2 (by decide) (by decide) (by decide))
  have T20 := T19.tail (Step.get 0 ⟨-1, 1, 2⟩ [⟨-1, 2, 3⟩] (by decide) (by decide))
  have T21 := T20.tail (Step.get 2 ⟨-1, 2, 3⟩ [] (by decide) (by decide))
  have T22 := T21.tail (Step.assign 0 2 5 (by decide))
  have T23 := T22.tail (Step.assign 2 3 5 (by decide))
  exact ⟨_, T23, ⟨by decide, by decide⟩, ⟨by decide, by decide⟩⟩

/-- C3: for every reachable state and every patient whose
`service_start_time` has been stamped, the start is not before the arrival,
and the wait the statistics block computes,
`(service_start - arrival).total_seconds() / 60`, equals the interval
`service_start - arrival` exactly (stated in seconds: sixty times the
computed minutes is exactly the difference). -/
theorem wait_time_exact (rate : ℚ) (s : QState) (h : Reachable rate s)
    (p st : Nat) (hst : (s.patients p).serviceStart = some st) :
    (s.patients p).arrival ≤ st ∧
      60 * waitMinutes (s.patients p) = (st : ℚ) - ((s.patients p).arrival : ℚ) := by
  obtain ⟨-, h2⟩ := serviceInv_reachable h
  refine ⟨(h2 p st hst).1, ?_⟩
  unfold waitMinutes
  rw [hst]
  simp only [Option.getD_some]
  ring

/-- C3 witness: patient 1 is admitted and enters service at time 0 in a
concrete reachable state; its start is at or after its arrival and the
reported wait is exactly the difference. -/
theorem wait_time_exact_witness :
    (c3WitState.patients 1).arrival ≤ 0 ∧
      60 * waitMinutes (c3WitState.patients 1) =
        ((0 : Nat) : ℚ) - ((c3WitState.patients 1).arrival : ℚ) :=
  wait_time_exact 4 c3WitState
    (by
      have T0 : Relation.ReflTransGen Step (initState 4) (initState 4) :=
        Relation.ReflTransGen.refl
      have T1 := T0.tail (Step.add 1)
      have T2 := T1.tail (Step.toggleOn (by decide))
      have T3 := T2.tail (Step.loopRun 0 (by decide) (by decide))
      have T4 := T3.tail (Step.checkTrue 0 (by decide) (by decide) (by decide))
      have T5 := T4.tail (Step.get 0 ⟨-1, 0, 1⟩ [] (by decide) (by decide))
      have T6 := T5.tail (Step.assign 0 1 3 (by decide))
      exact T6)
    1 0 (by decide)

/-- C4: toggling the service off only clears `is_running` — the queue, the
completed list, the current patient, every patient record, and every thread
are untouched — and a service thread whose `time.sleep` has elapsed still
completes even with the flag off: its wake and finish steps are enabled, and
they move the in-flight patient to the completed list with its
`service_end_time` stamped.  The toggle only gates whether threads pass the
`while is_running` test and pop new patients. -/
theorem toggle_gates_only_new_pops (t s : QState) (i w p : Nat)
    (ht : t.running = true) (_hrun : s.running = false)
    (hi : s.threads[i]? = some (.sleeping w)) (hw : w ≤ s.now)
    (hc : s.current = some p) :
    Step t (toggleOffS t) ∧
    (toggleOffS t).q = t.q ∧ (toggleOffS t).completed = t.completed ∧
    (toggleOffS t).current = t.current ∧ (toggleOffS t).patients = t.patients ∧
    (toggleOffS t).threads = t.threads ∧
    Step s (setPC s i .atFinish) ∧
    Step (setPC s i .atFinish) (finishS (setPC s i .atFinish) i p) ∧
    p ∈ (finishS (setPC s i .atFinish) i p).completed ∧
    ((finishS (setPC s i .atFinish) i p).patients p).serviceEnd = some s.now := by
  refine ⟨Step.toggleOff ht, rfl, rfl, rfl, rfl, rfl, Step.wake i w hi hw, ?_, ?_, ?_⟩
  · refine Step.finish i p ?_ hc
    have hlt : i < s.threads.length := by
      by_contra hge
      rw [List.getElem?_eq_none (Nat.le_of_not_lt hge)] at hi
      cases hi
    exact List.getElem?_set_self hlt
  · exact List.mem_append_right _ (List.mem_singleton_self p)
  · simp [finishS, setPC, setPatient]

/-- C4 witness: a running state and a halted state with a fired timer and
patient 1 in service; the toggle preserves everything and the in-flight
patient completes. -/
theorem toggle_gates_only_new_pops_witness :
    Step (toggleOnS (initState 4)) (toggleOffS (toggleOnS (initState 4))) ∧
    (toggleOffS (toggleOnS (initState 4))).q = (toggleOnS (initState 4)).q ∧
    (toggleOffS (toggleOnS (initState 4))).completed = (toggleOnS (initState 4)).completed ∧
    (toggleOffS (toggleOnS (initState 4))).current = (toggleOnS (initState 4)).current ∧
    (toggleOffS (toggleOnS (initState 4))).patients = (toggleOnS (initState 4)).patients ∧
    (toggleOffS (toggleOnS (initState 4))).threads = (toggleOnS (initState 4)).threads ∧
    Step c4WitState (setPC c4WitState 0 .atFinish) ∧
    Step (setPC c4WitState 0 .atFinish) (finishS (setPC c4WitState 0 .atFinish) 0 1) ∧
    1 ∈ (finishS (setPC c4WitState 0 .atFinish) 0 1).completed ∧
    ((finishS (setPC c4WitState 0 .atFinish) 0 1).patients 1).serviceEnd =
      some c4WitState.now :=
  toggle_gates_only_new_pops (toggleOnS (initState 4)) c4WitState 0 0 1
    rfl rfl (by decide) (Nat.le_refl 0) rfl

/-- C5: admission is non-preemptive and frame-respecting: `add_patient`
leaves `current_patient`, `completed_patients`, the running flag, the
threads, and every existing patient record unchanged; its only effects are
the counter bump and the ordered insertion of the new entry at its priority
rank (the drain-and-refill triggered by the nested `update_display` call is
the identity on a queue with pairwise distinct keys). -/
theorem add_patient_frame (s : QState) (prio p : Nat)
    (hq : s.q.Pairwise keyLt)
    (hkey : ∀ e ∈ s.q, e.negpri ≠ -(prio : Int) ∨ e.ts ≠ s.now)
    (hp : p ≠ s.counter + 1) :
    (addS s prio).current = s.current ∧
    (addS s prio).completed = s.completed ∧
    (addS s prio).running = s.running ∧
    (addS s prio).threads = s.threads ∧
    (addS s prio).patients p = s.patients p ∧
    (addS s prio).q =
      List.orderedInsert keyLe ⟨-(prio : Int), s.now, s.counter + 1⟩ s.q := by
  refine ⟨rfl, rfl, rfl, rfl, ?_, ?_⟩
  · simp [addS, setPatient, hp]
  · show drainRefill _ = _
    apply drainRefill_eq_self
    apply pairwise_orderedInsert hq
    intro x hx
    exact keyLt_or_keyLt_of_key_ne (hkey x hx)

/-- C5 witness: adding an Urgent patient to a fresh object. -/
theorem add_patient_frame_witness :
    (addS (initState 4) 2).current = (initState 4).current ∧
    (addS (initState 4) 2).completed = (initState 4).completed ∧
    (addS (initState 4) 2).running = (initState 4).running ∧
    (addS (initState 4) 2).threads = (initState 4).threads ∧
    (addS (initState 4) 2).patients 7 = (initState 4).patients 7 ∧
    (addS (initState 4) 2).q =
      List.orderedInsert keyLe
        ⟨-((2 : Nat) : Int), (initState 4).now, (initState 4).counter + 1⟩
        (initState 4).q :=
  add_patient_frame (initState 4) 2 7 (by simp [initState])
    (by intro e he; simp [initState] at he) (by decide)

/-- C6: the statistics path of `update_display` does NOT raise on an empty
completed set — the `if self.completed_patients:` guard simply skips the
block, leaving the placeholder labels; there is no `InsufficientDataError`
anywhere in the program.  At the concrete empty input the computation
returns successfully with no statistics. -/
theorem empty_statistics_returns_ok :
    updateStatistics [] (fun _ => ({} : PatientData)) = Except.ok none := rfl

/-- On a patient whose start is stamped, the fallible wait computation of
lines 164-165 agrees with `waitMinutes`: the error path is only the unset
start. -/
theorem waitMinutesE_eq_of_stamped {pd : PatientData} {st : Nat}
    (h : pd.serviceStart = some st) : waitMinutesE pd = Except.ok (waitMinutes pd) := by
  unfold waitMinutesE waitMinutes
  rw [h]
  simp

/-- The statistics block does raise when a completed patient's
`service_start_time` is still unset (the `TypeError` of `None - datetime` at
line 164), so its benign behaviour is specific to the empty case. -/
theorem statistics_raise_on_unstamped (patients : Nat → PatientData) (p : Nat)
    (cs : List Nat) (hp : (patients p).serviceStart = none) :
    updateStatistics (p :: cs) patients = Except.error "TypeError" := by
  simp [updateStatistics, waitListE, waitMinutesE, hp]

/-- C6 (amended): requesting statistics with an empty completed record set
does not fail: the `if self.completed_patients:` guard skips the averaging
block, no statistics are produced, the labels keep their placeholder
values, and no error of any kind is raised on the empty set. -/
theorem empty_statistics_skipped (patients : Nat → PatientData) :
    updateStatistics [] patients = Except.ok none ∧
      exceptOk (updateStatistics [] patients) = true :=
  ⟨rfl, rfl⟩

/-- C7: a zero-duration service is reachable: the code stores
`int(poisson.rvs(...))` with no minimum, so a Poisson draw of 0 gives
`service_duration = 0` and the patient completes with
`service_end_time = service_start_time`. -/
theorem zero_duration_service_reachable :
    ∃ s : QState, Reachable 4 s ∧ s.completed = [1] ∧
      (s.patients 1).serviceDuration = some 0 ∧
      (s.patients 1).serviceStart = some 0 ∧
      (s.patients 1).serviceEnd = some 0 := by
  have T0 : Relation.ReflTransGen Step (initState 4) (initState 4) :=
    Relation.ReflTransGen.refl
  have T1 := T0.tail (Step.add 1)
  have T2 := T1.tail (Step.toggleOn (by decide))
  have T3 := T2.tail (Step.loopRun 0 (by decide) (by decide))
  have T4 := T3.tail (Step.checkTrue 0 (by decide) (by decide) (by decide))
  have T5 := T4.tail (Step.get 0 ⟨-1, 0, 1⟩ [] (by decide) (by decide))
  have T6 := T5.tail (Step.assign 0 1 0 (by decide))
  have T7 := T6.tail (Step.wake 0 0 (by decide) (by decide))
  have T8 := T7.tail (Step.finish 0 1 (by decide) (by decide))
  exact ⟨_, T8, by decide, by decide, by decide, by decide⟩

/-- C7 (amended): the stored service duration is the raw integer Poisson
draw, unmodified — `int()` is the identity on it, there is no rounding and
no minimum-of-1 floor — and the service step accepts a draw of 0. -/
theorem raw_draw_is_duration (s : QState) (i p d : Nat)
    (h : s.threads[i]? = some (.atAssign p)) :
    Step s (assignS s i p (serviceDurationOf d)) ∧
    ((assignS s i p (serviceDurationOf d)).patients p).serviceDuration =
      some (serviceDurationOf d) ∧
    serviceDurationOf d = d := by
  refine ⟨Step.assign i p _ h, ?_, rfl⟩
  simp [assignS, setPatient]

/-- C7 witness: the duration-assignment step applied with a draw of 0 in a
state whose thread 0 holds patient 1. -/
theorem raw_draw_is_duration_witness :
    Step c7WitState (assignS c7WitState 0 1 (serviceDurationOf 0)) ∧
    ((assignS c7WitState 0 1 (serviceDurationOf 0)).patients 1).serviceDuration =
      some (serviceDurationOf 0) ∧
    serviceDurationOf 0 = 0 :=
  raw_draw_is_duration c7WitState 0 1 0 (by decide)

/-- C8: `add_patient` returns `None` (the method has no return statement),
not the new patient's id; the id only goes into the stored `Patient`
object and the counter. -/
theorem add_patient_returns_none :
    addPatientReturn (initState 4) 1 = none ∧
      (addS (initState 4) 1).counter = 1 ∧
      addPatientReturn (initState 4) 1 ≠ some ((addS (initState 4) 1).counter) := by
  exact ⟨rfl, rfl, by decide⟩

/-- C8 (amended): `add_patient` returns `None`; internally it assigns the
new patient the id `patient_counter + 1`, which is strictly greater than
every id in use anywhere in any reachable state — ids are unique and never
reused. -/
theorem fresh_id_strictly_greater (rate : ℚ) (s : QState) (h : Reachable rate s)
    (prio p : Nat) (hp : p ∈ usedIds s) :
    (addS s prio).counter = s.counter + 1 ∧ p < (addS s prio).counter := by
  refine ⟨rfl, ?_⟩
  have hb := usedIds_bound h p hp
  have : (addS s prio).counter = s.counter + 1 := rfl
  omega

/-- C8 witness: after admitting patient 1, admitting another patient
assigns id 2, strictly greater than the used id 1. -/
theorem fresh_id_strictly_greater_witness :
    (addS (addS (initState 4) 1) 2).counter = (addS (initState 4) 1).counter + 1 ∧
      1 < (addS (addS (initState 4) 1) 2).counter :=
  fresh_id_strictly_greater 4 (addS (initState 4) 1)
    (Relation.ReflTransGen.refl.tail (Step.add 1)) 2 1 (by decide)

/-- C9: constructing the simulation with a non-positive rate does NOT fail:
`__init__` performs no validation at all, so `initQueue 0` succeeds. -/
theorem zero_rate_constructs_fine :
    initQueue 0 = Except.ok (initState 0) ∧ exceptOk (initQueue 0) = true :=
  ⟨rfl, rfl⟩

/-- C9 (amended): the constructor never validates `avg_service_rate` — it
succeeds for every rate, including zero and negative values — and a zero
rate only surfaces later, as a `ZeroDivisionError` when `60 / rate` is
evaluated at the Poisson draw inside the service loop. -/
theorem no_validation_at_setup (rate r : ℚ) (hz : rate = 0) :
    initQueue r = Except.ok (initState r) ∧
      muOf rate = Except.error "ZeroDivisionError" := by
  subst hz
  exact ⟨rfl, by simp [muOf]⟩

/-- C9 witness: construction with rate −1 succeeds, and the zero-rate mean
computation is where the division error lives. -/
theorem no_validation_at_setup_witness :
    initQueue (-1) = Except.ok (initState (-1)) ∧
      muOf 0 = Except.error "ZeroDivisionError" :=
  no_validation_at_setup 0 (-1) rfl

/-- C10: the drain-and-refill of `update_display` is a round trip: on a
queue with pairwise distinct keys (the only queues Python can actually
iterate without crashing on a tuple tie) the queue after `update_display`
is exactly the queue before — the same entries, popping in the same
order. -/
theorem update_display_round_trip (s : QState) (h : s.q.Pairwise keyLt) :
    updDispS s = s ∧ drainRefill s.q = s.q ∧
      popSeq (drainRefill s.q) = popSeq s.q := by
  have hd := drainRefill_eq_self h
  refine ⟨?_, hd, by rw [hd]⟩
  show { s with q := drainRefill s.q } = s
  rw [hd]

/-- C10 witness: the round trip on a concrete two-entry queue. -/
theorem update_display_round_trip_witness :
    updDispS c10WitState = c10WitState ∧
      drainRefill c10WitState.q = c10WitState.q ∧
      popSeq (drainRefill c10WitState.q) = popSeq c10WitState.q :=
  update_display_round_trip c10WitState (by decide)

end HospitalQueue
